import Mathlib

/-!
Shallow embedding of `src/bot.py` (VS1/BeeOS team bot): the credential-rotation
request engine (`MultiTokenTwitterClient._try_all_clients`), the three source
monitors (`TwitterMonitor`, `InfluencerMonitor`, `MediumMonitor`) and the
fair `ManagerAssigner`, together with proofs of the claims C1..C10.

Text is modelled as `List Char`; Python `s.lower()` is `List.map Char.toLower`
and the Python substring test `a in b` is `decide (a <:+: b)`.
-/

/-- Python `str.lower()` on the text alphabet used by the bot. -/
def lowerStr (s : List Char) : List Char := s.map Char.toLower

/-- Python substring containment `needle in hay` for strings. -/
def pyIn (needle hay : List Char) : Bool := decide (needle <:+: hay)

/-! ## Credential pool: `MultiTokenTwitterClient._try_all_clients` (bot.py 163-192) -/
/-- Outcome of calling `operation(client)` on one credential: success with a
value, a `tweepy.TooManyRequests` rate-limit error, or any other exception. -/
inductive OpResult (α : Type) where
  | success (r : α)
  | rateLimited
  | failure
  deriving DecidableEq

/-- `true` exactly on the `success` constructor. -/
def OpResult.isSuccess {α : Type} : OpResult α → Bool
  | .success _ => true
  | _ => false

/-- The pool-relevant part of `BotState`: the rotation index and the
per-credential usage counters (bot.py 95-96). -/
structure PoolState where
  current_token_index : Nat
  token_usage_counts : Nat → Nat

/-- Result of one `_try_all_clients` call: the returned value (`none` when all
credentials fail), the state afterwards, the credential indices on which the
operation was invoked in order, and whether `state.save()` ran. -/
structure TryOutcome (α : Type) where
  result : Option α
  state : PoolState
  attempts : List Nat
  saved : Bool

/-- The `for i in range(len(self.clients))` loop of `_try_all_clients`
(bot.py 171-189): `k` iterations remain and `i` is the loop counter; the
candidate is `(start + i) % N`.  On success the rotation index becomes the
candidate, its usage counter is incremented and the state is saved; on a
rate limit or any other error the loop continues. -/
def tryLoop {α : Type} (N : Nat) (op : Nat → OpResult α) (start : Nat)
    (st : PoolState) : Nat → Nat → TryOutcome α
  | 0, _ => ⟨none, st, [], false⟩
  | k + 1, i =>
    let ci := (start + i) % N
    match op ci with
    | .success r =>
      ⟨some r,
       ⟨ci, fun j => if j = ci then st.token_usage_counts j + 1
                     else st.token_usage_counts j⟩,
       [ci], true⟩
    | .rateLimited =>
      let rest := tryLoop N op start st k (i + 1)
      ⟨rest.result, rest.state, ci :: rest.attempts, rest.saved⟩
    | .failure =>
      let rest := tryLoop N op start st k (i + 1)
      ⟨rest.result, rest.state, ci :: rest.attempts, rest.saved⟩

/-- `MultiTokenTwitterClient._try_all_clients` (bot.py 163-192): with no
clients it returns `None` at once; otherwise it reads
`start_index = state.current_token_index` and runs the loop over all `N`
clients. -/
def tryAllClients {α : Type} (N : Nat) (op : Nat → OpResult α)
    (st : PoolState) : TryOutcome α :=
  if N = 0 then ⟨none, st, [], false⟩
  else tryLoop N op st.current_token_index st N 0

/-- Witness for C1 at a concrete pool of size 3. -/
def opMixW : Nat → OpResult Nat := fun j => if j = 2 then .success 7 else .rateLimited

/-- Witness for C2 and C3: every credential rate-limited. -/
def opFailW : Nat → OpResult Nat := fun _ => OpResult.rateLimited

/-- Concrete pool state: rotation index 1, all counters 0. -/
def poolStW : PoolState := ⟨1, fun _ => 0⟩

/-! ## Shared text constants and dictionaries -/
/-- `TWITTER_ACCOUNT = 'beeos_arenavs'` (bot.py 51). -/
def TWITTER_ACCOUNT : List Char := "beeos_arenavs".toList

/-- `f"@{TWITTER_ACCOUNT}".lower()` (bot.py 448). -/
def mentionTarget : List Char := lowerStr ("@".toList ++ TWITTER_ACCOUNT)

/-- Python `dict` lookup `d.get(k)`: value of the first (unique) matching
key, or `None`. -/
def dictGet {V : Type} (d : List (List Char × V)) (k : List Char) : Option V :=
  match d with
  | [] => none
  | (k₁, v₁) :: rest => if k₁ = k then some v₁ else dictGet rest k

/-- Python `dict` assignment `d[k] = v`: replace the value at `k` or append
the new entry. -/
def dictSet {V : Type} (d : List (List Char × V)) (k : List Char) (v : V) :
    List (List Char × V) :=
  match d with
  | [] => [(k, v)]
  | (k₁, v₁) :: rest =>
      if k₁ = k then (k, v) :: rest else (k₁, v₁) :: dictSet rest k v

/-! ## Influencer monitor: `InfluencerMonitor.check_influencer_posts`
(bot.py 406-462) -/
/-- The dictionary built by `get_user_tweets` for one tweet (bot.py 224-233). -/
structure Tweet where
  id : List Char
  text : List Char
  link : List Char
  username : List Char
  created_at : Option (List Char)
  deriving DecidableEq

/-- The influencer-relevant part of `BotState` (bot.py 93-94). -/
structure InflState where
  influencer_user_ids : List (List Char × List Char)
  influencer_last_tweets : List (List Char × List Char)
  deriving DecidableEq

/-- The tweet-mention test of bot.py 448:
`f"@{TWITTER_ACCOUNT}".lower() in tweet['text'].lower()`. -/
def mentionsTarget (text : List Char) : Bool := pyIn mentionTarget (lowerStr text)

/-- The `for username in check_list` loop of `check_influencer_posts`
(bot.py 427-456).  `fetch u` is the list returned by
`get_user_tweets(u, since_id=...)` for this run (`[]` both for "no new
tweets" and for a failed call, as in the source).  Usernames without a
cached user id are skipped.  When the fetch is non-empty the per-username
cursor is set to the first returned id, and the tweets that mention the
official account are appended to the posts. -/
def inflLoop (fetch : List Char → List Tweet) :
    List (List Char) → InflState → InflState × List Tweet
  | [], st => (st, [])
  | u :: rest, st =>
    let ul := lowerStr u
    match dictGet st.influencer_user_ids ul with
    | none => inflLoop fetch rest st
    | some _ =>
      match fetch u with
      | [] => inflLoop fetch rest st
      | t₀ :: ts =>
        let st₁ : InflState :=
          { st with influencer_last_tweets :=
              dictSet st.influencer_last_tweets ul t₀.id }
        let posts := (t₀ :: ts).filter (fun t => mentionsTarget t.text)
        let r := inflLoop fetch rest st₁
        (r.1, posts ++ r.2)

/-- `InfluencerMonitor.check_influencer_posts` (bot.py 406-462): check the
first 50 influencers; afterwards `state.save()` runs only under
`if new_posts:`.  The boolean records whether that end-of-run save ran. -/
def check_influencer_posts (fetch : List Char → List Tweet)
    (influencers : List (List Char)) (st : InflState) :
    InflState × List Tweet × Bool :=
  if influencers.length = 0 then (st, [], false)
  else
    let r := inflLoop fetch (influencers.take 50) st
    (r.1, r.2, decide (r.2 ≠ []))

/-- A checked username for the C4 and C5 runs. -/
def aliceW : List Char := "alice".toList

/-- A new tweet that does not mention the official account. -/
def tweetPlainW : Tweet :=
  ⟨"5".toList, "hello world".toList, "l".toList, aliceW, none⟩

/-- Fetch oracle for the C4 run: alice has exactly one new, boring tweet. -/
def fetchPlainW : List Char → List Tweet :=
  fun u => if u = aliceW then [tweetPlainW] else []

/-- Influencer state with a cached user id for alice and no cursor yet. -/
def inflStW : InflState := ⟨[(aliceW, "100".toList)], []⟩

/-- Oldest scenario tweet: no mention. -/
def tweet1W : Tweet := ⟨"1".toList, "gm".toList, "l1".toList, aliceW, none⟩

/-- Middle scenario tweet: mentions the official handle in mixed case. -/
def tweet2W : Tweet :=
  ⟨"2".toList, "Big news from @BeeOS_ArenaVS today".toList, "l2".toList,
   aliceW, none⟩

/-- Newest scenario tweet: no mention. -/
def tweet3W : Tweet := ⟨"3".toList, "just vibes".toList, "l3".toList, aliceW, none⟩

/-- Fetch oracle for the C5 scenario: alice returns T3, T2, T1 newest first. -/
def fetchScenW : List Char → List Tweet :=
  fun u => if u = aliceW then [tweet3W, tweet2W, tweet1W] else []

/-! ## Official-account monitor: `TwitterMonitor` (bot.py 285-308) and the
scheduled job `check_twitter_job` (bot.py 754-769) -/
/-- The official-account part of `BotState` (bot.py 91). -/
structure TwState where
  last_tweet_id : Option (List Char)
  deriving DecidableEq

/-- Observable events of one `check_twitter_job` run, in program order:
persisting the advanced cursor (`state.save()`, bot.py 300-301) and sending
one notification per tweet (bot.py 764-766). -/
inductive TwEvent where
  | persistCursor (id : List Char)
  | send (tweetId : List Char) (isSpace : Bool)
  deriving DecidableEq

/-- `TwitterMonitor.check_for_new_tweets` (bot.py 292-303): `tweets` is what
`get_user_tweets` returned.  On a non-empty result the cursor advances to
the first id and is saved; the save event is recorded. -/
def check_for_new_tweets (tweets : List Tweet) (st : TwState) :
    TwState × List Tweet × List TwEvent :=
  match tweets with
  | [] => (st, [], [])
  | t :: ts => (⟨some t.id⟩, t :: ts, [TwEvent.persistCursor t.id])

/-- `TwitterMonitor.is_twitter_space` (bot.py 305-308). -/
def is_twitter_space (text : List Char) : Bool :=
  pyIn "space".toList (lowerStr text) ||
  pyIn "spaces".toList (lowerStr text) ||
  pyIn "twitter.com/i/spaces".toList (lowerStr text)

/-- `check_twitter_job` (bot.py 754-769): run the check, then send one
notification per returned tweet, in order. -/
def check_twitter_job (tweets : List Tweet) (st : TwState) :
    TwState × List TwEvent :=
  let r := check_for_new_tweets tweets st
  (r.1, r.2.2 ++ r.2.1.map (fun t => TwEvent.send t.id (is_twitter_space t.text)))

/-! ## Medium monitor: `MediumMonitor.check_for_new_articles`
(bot.py 476-513) -/
/-- A parsed feed entry; each field models `entry.get(...)`, absent keys
are `none`. -/
structure FeedEntry where
  id : Option (List Char)
  link : Option (List Char)
  title : Option (List Char)
  summary : Option (List Char)
  published : Option (List Char)
  deriving DecidableEq

/-- The feed part of `BotState` (bot.py 92). -/
structure MedState where
  last_medium_article : Option (List Char)
  deriving DecidableEq

/-- The dictionary appended for one new entry (bot.py 498-503). -/
structure Article where
  title : List Char
  link : List Char
  summary : List Char
  published : List Char
  deriving DecidableEq

/-- `article_id = entry.get('id', entry.get('link', ''))` (bot.py 493). -/
def entryId (e : FeedEntry) : List Char := e.id.getD (e.link.getD [])

/-- `entry.get('summary', '')[:200] + '...' if entry.get('summary') else ''`
(bot.py 501): the ternary condition is the truthiness of the summary. -/
def mediumSummary (s : Option (List Char)) : List Char :=
  match s with
  | none => []
  | some str => if str = [] then [] else str.take 200 ++ "...".toList

/-- The article dictionary built for a new entry (bot.py 498-503). -/
def mkArticle (e : FeedEntry) : Article :=
  ⟨e.title.getD "Untitled".toList, e.link.getD [], mediumSummary e.summary,
   e.published.getD []⟩

/-- The break condition of bot.py 495:
`self.state.last_medium_article and article_id == self.state.last_medium_article`. -/
def cursorHit (cursor : Option (List Char)) (aid : List Char) : Bool :=
  match cursor with
  | none => false
  | some m => decide (m ≠ []) && decide (aid = m)

/-- The `for entry in feed.entries[:5]` loop with its `break` (bot.py 492-503). -/
def collectNew (cursor : Option (List Char)) : List FeedEntry → List Article
  | [] => []
  | e :: rest =>
    if cursorHit cursor (entryId e) then []
    else mkArticle e :: collectNew cursor rest

/-- `MediumMonitor.check_for_new_articles` (bot.py 476-513): `fetched` is
`none` for a transport error (the `except` branch) and otherwise carries the
HTTP status and the parsed entries.  The boolean records whether
`state.save()` ran. -/
def check_for_new_articles (fetched : Option (Nat × List FeedEntry))
    (st : MedState) : MedState × List Article × Bool :=
  match fetched with
  | none => (st, [], false)
  | some (status, entries) =>
    if status ≠ 200 then (st, [], false)
    else
      match entries with
      | [] => (st, [], false)
      | e₀ :: rest =>
        let new_articles := collectNew st.last_medium_article ((e₀ :: rest).take 5)
        if new_articles ≠ [] then (⟨some (entryId e₀)⟩, new_articles, true)
        else (st, new_articles, false)

/-- Empty official-account cursor for the C6 witness run. -/
def twStW : TwState := ⟨none⟩

/-- Fetch oracle with no new items anywhere. -/
def fetchEmptyW : List Char → List Tweet := fun _ => []

/-- Non-empty feed cursor for the C7 witness. -/
def medStW : MedState := ⟨some "a".toList⟩

/-- A feed entry whose summary ("hi", 2 characters) fits well within the
200-character bound. -/
def entrySmallW : FeedEntry :=
  ⟨some "e1".toList, some "L1".toList, some "T1".toList, some "hi".toList, none⟩

/-- Empty feed cursor. -/
def medStEmptyW : MedState := ⟨none⟩

/-! ## Manager assigner: `ManagerAssigner.assign_manager` (bot.py 526-544) -/
/-- `INFLUENCER_MANAGERS` in its fixed iteration order (bot.py 61-65). -/
def INFLUENCER_MANAGERS : List (List Char × Nat) :=
  [("Igor".toList, 422264082), ("Roman".toList, 883728320),
   ("Dyma".toList, 6993427932)]

/-- The selection loop of bot.py 531-538: `minCount` is `min_count`
(`none` stands for `float('inf')`), `selected` the current selection; a
strictly smaller count takes over, so the first minimum wins. -/
def assignLoop (counts : List Char → Nat) :
    Option Nat → List Char × Nat → List (List Char × Nat) → List Char × Nat
  | _, selected, [] => selected
  | minCount, selected, (name, tid) :: rest =>
    let c := counts name
    let takes := match minCount with
      | none => true
      | some mc => decide (c < mc)
    if takes then assignLoop counts (some c) (name, tid) rest
    else assignLoop counts minCount selected rest

/-- `ManagerAssigner.assign_manager` (bot.py 526-544) over an arbitrary
ledger (`manager_assignment_counts.get(name, 0)` as a total function) and
pool: select by the loop, increment the selected count, save (the final
`true`), return the selection.  An empty pool has no `managers[0]`. -/
def assign_manager (counts : List Char → Nat)
    (managers : List (List Char × Nat)) :
    Option ((List Char → Nat) × (List Char × Nat) × Bool) :=
  match managers with
  | [] => none
  | m₀ :: _ =>
    let sel := assignLoop counts none m₀ managers
    some (fun k => if k = sel.1 then counts k + 1 else counts k, sel, true)

/-- The specification form of the selection loop once a current minimum is
held: strictly smaller counts take over. -/
def firstMin (counts : List Char → Nat) (cur : List Char × Nat) :
    List (List Char × Nat) → List Char × Nat
  | [] => cur
  | m :: rest =>
    if counts m.1 < counts cur.1 then firstMin counts m rest
    else firstMin counts cur rest

/-- `check_influencers_job` pairing (bot.py 789-806) is not needed for C8;
this iterates `assign_manager` and records the picks in order. -/
def iterateAssign (managers : List (List Char × Nat)) :
    Nat → (List Char → Nat) → (List Char → Nat) × List (List Char × Nat)
  | 0, counts => (counts, [])
  | n + 1, counts =>
    match assign_manager counts managers with
    | none => (counts, [])
    | some (counts₂, sel, _) =>
      let r := iterateAssign managers n counts₂
      (r.1, sel :: r.2)

/-- The all-zero assignment ledger. -/
def zeroCounts : List Char → Nat := fun _ => 0

/-! ## Theorems -/

/-! ### Loop lemmas -/
/-- Consing the current candidate onto the candidate sequence started one
step later gives the candidate sequence started now. -/
theorem candSeq_cons (N start i k : Nat) :
    (start + i) % N :: (List.range k).map (fun j => (start + (i + 1 + j)) % N) =
    (List.range (k + 1)).map (fun j => (start + (i + j)) % N) := by
  rw [List.range_succ_eq_map, List.map_cons, List.map_map]
  refine congrArg₂ List.cons rfl ?_
  apply List.map_congr_left
  intro j _
  simp only [Function.comp_apply]
  congr 1
  omega

/-- The attempt list of the loop is an initial segment of the candidate
sequence `(start + i + j) % N`, `j = 0, 1, ...`. -/
theorem tryLoop_attempts_shape {α : Type} (N : Nat) (op : Nat → OpResult α)
    (start : Nat) (st : PoolState) :
    ∀ k i, ∃ m ≤ k, (tryLoop N op start st k i).attempts =
      (List.range m).map (fun j => (start + (i + j)) % N) := by
  intro k
  induction k with
  | zero => intro i; exact ⟨0, le_rfl, rfl⟩
  | succ k ih =>
    intro i
    obtain ⟨m, hm, hRest⟩ := ih (i + 1)
    cases hop : op ((start + i) % N) with
    | success r =>
      refine ⟨1, by omega, ?_⟩
      simp only [tryLoop, hop]
      rfl
    | rateLimited =>
      refine ⟨m + 1, by omega, ?_⟩
      simp only [tryLoop, hop]
      rw [hRest]
      exact candSeq_cons N start i m
    | failure =>
      refine ⟨m + 1, by omega, ?_⟩
      simp only [tryLoop, hop]
      rw [hRest]
      exact candSeq_cons N start i m

/-- If every candidate the loop will visit fails, the loop returns no result,
leaves the state untouched, records every candidate, and never saves. -/
theorem tryLoop_all_fail {α : Type} (N : Nat) (op : Nat → OpResult α)
    (start : Nat) (st : PoolState) :
    ∀ k i, (∀ j < k, (op ((start + (i + j)) % N)).isSuccess = false) →
      tryLoop N op start st k i =
        ⟨none, st, (List.range k).map (fun j => (start + (i + j)) % N), false⟩ := by
  intro k
  induction k with
  | zero => intro i _; rfl
  | succ k ih =>
    intro i hfail
    have h0 := hfail 0 (by omega)
    simp only [Nat.add_zero] at h0
    cases hop : op ((start + i) % N) with
    | success r =>
      exfalso
      rw [hop] at h0
      simp [OpResult.isSuccess] at h0
    | rateLimited =>
      have hRest := ih (i + 1) (fun j hj => by
        have hh := hfail (j + 1) (by omega)
        rw [show start + (i + (j + 1)) = start + (i + 1 + j) by omega] at hh
        exact hh)
      simp only [tryLoop, hop]
      rw [hRest]
      simp only [TryOutcome.mk.injEq, true_and, and_true]
      exact candSeq_cons N start i k
    | failure =>
      have hRest := ih (i + 1) (fun j hj => by
        have hh := hfail (j + 1) (by omega)
        rw [show start + (i + (j + 1)) = start + (i + 1 + j) by omega] at hh
        exact hh)
      simp only [tryLoop, hop]
      rw [hRest]
      simp only [TryOutcome.mk.injEq, true_and, and_true]
      exact candSeq_cons N start i k

/-- If the first succeeding candidate is at loop offset `j₀ < k`, the loop
returns its result, sets the rotation index to that candidate, increments
exactly its counter, and saves. -/
theorem tryLoop_first_success {α : Type} (N : Nat) (op : Nat → OpResult α)
    (start : Nat) (st : PoolState) :
    ∀ k i j₀ r, j₀ < k →
      (∀ j < j₀, (op ((start + (i + j)) % N)).isSuccess = false) →
      op ((start + (i + j₀)) % N) = .success r →
      tryLoop N op start st k i =
        ⟨some r,
         ⟨(start + (i + j₀)) % N,
          fun j => if j = (start + (i + j₀)) % N then st.token_usage_counts j + 1
                   else st.token_usage_counts j⟩,
         (List.range (j₀ + 1)).map (fun j => (start + (i + j)) % N), true⟩ := by
  intro k
  induction k with
  | zero => intro i j₀ r h; omega
  | succ k ih =>
    intro i j₀ r hlt hfail hsucc
    cases j₀ with
    | zero =>
      simp only [Nat.add_zero] at hsucc
      simp only [tryLoop, hsucc]
      rfl
    | succ j' =>
      have h0 := hfail 0 (by omega)
      simp only [Nat.add_zero] at h0
      have hsh : start + (i + 1 + j') = start + (i + (j' + 1)) := by omega
      cases hop : op ((start + i) % N) with
      | success r' =>
        exfalso
        rw [hop] at h0
        simp [OpResult.isSuccess] at h0
      | rateLimited =>
        have hRest := ih (i + 1) j' r (by omega)
          (fun j hj => by
            have hh := hfail (j + 1) (by omega)
            rw [show start + (i + (j + 1)) = start + (i + 1 + j) by omega] at hh
            exact hh)
          (by rw [hsh]; exact hsucc)
        simp only [tryLoop, hop]
        rw [hRest, hsh]
        simp only [TryOutcome.mk.injEq, true_and, and_true]
        exact candSeq_cons N start i (j' + 1)
      | failure =>
        have hRest := ih (i + 1) j' r (by omega)
          (fun j hj => by
            have hh := hfail (j + 1) (by omega)
            rw [show start + (i + (j + 1)) = start + (i + 1 + j) by omega] at hh
            exact hh)
          (by rw [hsh]; exact hsucc)
        simp only [tryLoop, hop]
        rw [hRest, hsh]
        simp only [TryOutcome.mk.injEq, true_and, and_true]
        exact candSeq_cons N start i (j' + 1)

/-! ### Claim theorems C1-C3 -/
/-- C1: one `_try_all_clients` call with pool size `N ≥ 1` invokes the
operation on at most `N` credentials, never twice on the same credential,
and in the order `(start + i) mod N`, `i = 0, 1, ...`, where `start` is the
stored rotation index. -/
theorem c1_rotation_order {α : Type} (N : Nat) (op : Nat → OpResult α)
    (st : PoolState) (hN : 1 ≤ N) :
    (tryAllClients N op st).attempts.length ≤ N ∧
    (tryAllClients N op st).attempts.Nodup ∧
    (tryAllClients N op st).attempts =
      (List.range (tryAllClients N op st).attempts.length).map
        (fun i => (st.current_token_index + i) % N) := by
  rw [tryAllClients, if_neg (by omega)]
  obtain ⟨m, hm, hAtt⟩ := tryLoop_attempts_shape N op st.current_token_index st N 0
  have hAtt' : (tryLoop N op st.current_token_index st N 0).attempts =
      (List.range m).map (fun i => (st.current_token_index + i) % N) := by
    rw [hAtt]
    apply List.map_congr_left
    intro j _
    congr 1
    omega
  have hlen : (tryLoop N op st.current_token_index st N 0).attempts.length = m := by
    rw [hAtt', List.length_map, List.length_range]
  refine ⟨by rw [hlen]; exact hm, ?_, by rw [hlen, hAtt']⟩
  rw [hAtt']
  refine List.Nodup.map_on ?_ (List.nodup_range m)
  intro x hx y hy hxy
  simp only [List.mem_range] at hx hy
  have hmod : x % N = y % N := Nat.ModEq.add_left_cancel' st.current_token_index hxy
  rwa [Nat.mod_eq_of_lt (by omega), Nat.mod_eq_of_lt (by omega)] at hmod

/-- Witness for C1: the theorem evaluated on a concrete three-token pool. -/
theorem c1_rotation_order_witness :
    (tryAllClients 3 opMixW poolStW).attempts.length ≤ 3 ∧
    (tryAllClients 3 opMixW poolStW).attempts.Nodup ∧
    (tryAllClients 3 opMixW poolStW).attempts =
      (List.range (tryAllClients 3 opMixW poolStW).attempts.length).map
        (fun i => (poolStW.current_token_index + i) % 3) :=
  c1_rotation_order 3 opMixW poolStW (by decide)

/-- C2: sticky-success rotation.  If the first succeeding candidate of the
call is at offset `j₀`, the stored rotation index afterwards equals that
candidate index; if all `N` candidates fail, the stored rotation index is
unchanged. -/
theorem c2_sticky_rotation {α : Type} (N : Nat) (op : Nat → OpResult α)
    (st : PoolState) :
    (∀ j₀ r, j₀ < N →
      (∀ j < j₀, (op ((st.current_token_index + j) % N)).isSuccess = false) →
      op ((st.current_token_index + j₀) % N) = .success r →
      (tryAllClients N op st).state.current_token_index =
        (st.current_token_index + j₀) % N) ∧
    ((∀ j < N, (op ((st.current_token_index + j) % N)).isSuccess = false) →
      (tryAllClients N op st).state.current_token_index =
        st.current_token_index) := by
  constructor
  · intro j₀ r hlt hfail hsucc
    rw [tryAllClients, if_neg (by omega)]
    have hf' : ∀ j < j₀,
        (op ((st.current_token_index + (0 + j)) % N)).isSuccess = false := by
      intro j hj
      rw [Nat.zero_add]
      exact hfail j hj
    have hs' : op ((st.current_token_index + (0 + j₀)) % N) = .success r := by
      rw [Nat.zero_add]
      exact hsucc
    rw [tryLoop_first_success N op st.current_token_index st N 0 j₀ r hlt hf' hs']
    simp [Nat.zero_add]
  · intro hfail
    by_cases hN : N = 0
    · subst hN
      rfl
    · rw [tryAllClients, if_neg hN]
      have hf' : ∀ j < N,
          (op ((st.current_token_index + (0 + j)) % N)).isSuccess = false := by
        intro j hj
        rw [Nat.zero_add]
        exact hfail j hj
      rw [tryLoop_all_fail N op st.current_token_index st N 0 hf']

/-- Witness for C2: with tokens 1 and 2 rate-limited and token 2 succeeding
at offset 1, the index sticks to 2; with every token failing it stays 1. -/
theorem c2_sticky_rotation_witness :
    (tryAllClients 3 opMixW poolStW).state.current_token_index =
      (poolStW.current_token_index + 1) % 3 ∧
    (tryAllClients 3 opFailW poolStW).state.current_token_index =
      poolStW.current_token_index :=
  ⟨(c2_sticky_rotation 3 opMixW poolStW).1 1 7 (by decide) (by decide) (by decide),
   (c2_sticky_rotation 3 opFailW poolStW).2 (by decide)⟩

/-- C3: a wholly failed call returns no result (the embedding is total, so
`none` stands for "return None, no exception"), and neither the rotation
index nor any usage counter is mutated or persisted: the state afterwards is
the prior state and no save happened. -/
theorem c3_all_fail_no_result {α : Type} (N : Nat) (op : Nat → OpResult α)
    (st : PoolState) :
    (∀ j < N, (op ((st.current_token_index + j) % N)).isSuccess = false) →
    (tryAllClients N op st).result = none ∧
    (tryAllClients N op st).state = st ∧
    (tryAllClients N op st).saved = false := by
  intro hfail
  by_cases hN : N = 0
  · subst hN
    exact ⟨rfl, rfl, rfl⟩
  · rw [tryAllClients, if_neg hN]
    have hf' : ∀ j < N,
        (op ((st.current_token_index + (0 + j)) % N)).isSuccess = false := by
      intro j hj
      rw [Nat.zero_add]
      exact hfail j hj
    rw [tryLoop_all_fail N op st.current_token_index st N 0 hf']
    exact ⟨rfl, rfl, rfl⟩

/-- Witness for C3: the all-rate-limited pool returns nothing, keeps the
state and does not save. -/
theorem c3_all_fail_no_result_witness :
    (tryAllClients 3 opFailW poolStW).result = none ∧
    (tryAllClients 3 opFailW poolStW).state = poolStW ∧
    (tryAllClients 3 opFailW poolStW).saved = false :=
  c3_all_fail_no_result 3 opFailW poolStW (by decide)

theorem dictGet_dictSet_self {V : Type} (d : List (List Char × V))
    (k : List Char) (v : V) : dictGet (dictSet d k v) k = some v := by
  induction d with
  | nil => simp [dictGet, dictSet]
  | cons p rest ih =>
    obtain ⟨k₁, v₁⟩ := p
    by_cases h : k₁ = k
    · simp [dictGet, dictSet, h]
    · simp [dictGet, dictSet, h, ih]

theorem dictGet_dictSet_ne {V : Type} (d : List (List Char × V))
    (k k₂ : List Char) (v : V) (hne : k₂ ≠ k) :
    dictGet (dictSet d k v) k₂ = dictGet d k₂ := by
  induction d with
  | nil => simp [dictGet, dictSet, Ne.symm hne]
  | cons p rest ih =>
    obtain ⟨k₁, v₁⟩ := p
    by_cases h : k₁ = k
    · subst h
      simp [dictGet, dictSet, Ne.symm hne]
    · simp only [dictSet, if_neg h]
      by_cases h₂ : k₁ = k₂
      · simp [dictGet, h₂]
      · simp [dictGet, h₂, ih]

/-- The loop never touches the cached user ids. -/
theorem inflLoop_ids (fetch : List Char → List Tweet) :
    ∀ l st, (inflLoop fetch l st).1.influencer_user_ids =
      st.influencer_user_ids := by
  intro l
  induction l with
  | nil => intro st; rfl
  | cons u rest ih =>
    intro st
    simp only [inflLoop]
    cases dictGet st.influencer_user_ids (lowerStr u) with
    | none => exact ih st
    | some uid =>
      cases fetch u with
      | nil => exact ih st
      | cons t₀ ts => exact ih _

/-- Cursors of usernames whose lowered form is not among the lowered list
are untouched by the loop. -/
theorem inflLoop_cursor_untouched (fetch : List Char → List Tweet) :
    ∀ l st k, k ∉ l.map lowerStr →
      dictGet (inflLoop fetch l st).1.influencer_last_tweets k =
      dictGet st.influencer_last_tweets k := by
  intro l
  induction l with
  | nil => intro st k _; rfl
  | cons u rest ih =>
    intro st k hk
    simp only [List.map_cons, List.mem_cons, not_or] at hk
    simp only [inflLoop]
    cases dictGet st.influencer_user_ids (lowerStr u) with
    | none => exact ih st k hk.2
    | some uid =>
      cases fetch u with
      | nil => exact ih st k hk.2
      | cons t₀ ts =>
        rw [ih _ k hk.2]
        exact dictGet_dictSet_ne _ _ _ _ hk.1

/-- If the lowered checked names are distinct, the cursor of a checked
username with a cached id and a non-empty fetch ends at the first fetched
id. -/
theorem inflLoop_cursor_set (fetch : List Char → List Tweet) :
    ∀ l st u t₀ ts, (l.map lowerStr).Nodup → u ∈ l →
      (dictGet st.influencer_user_ids (lowerStr u)).isSome = true →
      fetch u = t₀ :: ts →
      dictGet (inflLoop fetch l st).1.influencer_last_tweets (lowerStr u) =
        some t₀.id := by
  intro l
  induction l with
  | nil => intro st u t₀ ts _ hu; exact absurd hu (List.not_mem_nil u)
  | cons v rest ih =>
    intro st u t₀ ts hnd hu hid hfetch
    simp only [List.map_cons, List.nodup_cons] at hnd
    rcases List.mem_cons.mp hu with hvu | hurest
    · subst hvu
      simp only [inflLoop]
      cases hlook : dictGet st.influencer_user_ids (lowerStr u) with
      | none => rw [hlook] at hid; simp at hid
      | some uid =>
        rw [hfetch]
        have hout : lowerStr u ∉ rest.map lowerStr := hnd.1
        rw [inflLoop_cursor_untouched fetch rest _ (lowerStr u) hout]
        exact dictGet_dictSet_self _ _ _
    · simp only [inflLoop]
      cases hlook : dictGet st.influencer_user_ids (lowerStr v) with
      | none => exact ih st u t₀ ts hnd.2 hurest hid hfetch
      | some uid =>
        cases hfv : fetch v with
        | nil => exact ih st u t₀ ts hnd.2 hurest hid hfetch
        | cons s₀ ss =>
          have hid' : (dictGet
              ({ st with influencer_last_tweets :=
                  dictSet st.influencer_last_tweets (lowerStr v) s₀.id } :
                InflState).influencer_user_ids (lowerStr u)).isSome = true := hid
          exact ih _ u t₀ ts hnd.2 hurest hid' hfetch

/-- The posts produced by the loop are exactly, in order, the mentioning
tweets of each checked username that has a cached id. -/
theorem inflLoop_posts (fetch : List Char → List Tweet) :
    ∀ l st, (inflLoop fetch l st).2 =
      l.flatMap (fun u =>
        if (dictGet st.influencer_user_ids (lowerStr u)).isSome then
          (fetch u).filter (fun t => mentionsTarget t.text)
        else []) := by
  intro l
  induction l with
  | nil => intro st; rfl
  | cons u rest ih =>
    intro st
    cases hlook : dictGet st.influencer_user_ids (lowerStr u) with
    | none =>
      simp only [inflLoop, hlook, List.flatMap_cons]
      simp only [Option.isSome_none, Bool.false_eq_true, if_false,
        List.nil_append]
      exact ih st
    | some uid =>
      cases hfu : fetch u with
      | nil =>
        simp only [inflLoop, hlook, hfu, List.flatMap_cons]
        simp only [Option.isSome_some, if_true, List.filter_nil,
          List.nil_append]
        exact ih st
      | cons t₀ ts =>
        simp only [inflLoop, hlook, hfu, List.flatMap_cons]
        simp only [Option.isSome_some, if_true]
        rw [ih _]

/-- The posts component of `check_influencer_posts` is the loop posts. -/
theorem check_posts_eq (fetch : List Char → List Tweet)
    (influencers : List (List Char)) (st : InflState) :
    (check_influencer_posts fetch influencers st).2.1 =
      (inflLoop fetch (influencers.take 50) st).2 := by
  by_cases h0 : influencers.length = 0
  · have he : influencers = [] := List.length_eq_zero.mp h0
    subst he
    rfl
  · simp [check_influencer_posts, h0]

/-- The state component of `check_influencer_posts` is the loop state. -/
theorem check_state_eq (fetch : List Char → List Tweet)
    (influencers : List (List Char)) (st : InflState) :
    (check_influencer_posts fetch influencers st).1 =
      (inflLoop fetch (influencers.take 50) st).1 := by
  by_cases h0 : influencers.length = 0
  · have he : influencers = [] := List.length_eq_zero.mp h0
    subst he
    rfl
  · simp [check_influencer_posts, h0]

/-- The save flag of `check_influencer_posts` mirrors `if new_posts:`. -/
theorem check_saved_eq (fetch : List Char → List Tweet)
    (influencers : List (List Char)) (st : InflState) :
    (check_influencer_posts fetch influencers st).2.2 =
      decide ((check_influencer_posts fetch influencers st).2.1 ≠ []) := by
  by_cases h0 : influencers.length = 0
  · have he : influencers = [] := List.length_eq_zero.mp h0
    subst he
    rfl
  · simp [check_influencer_posts, h0]

/-- C4 as stated is false: in this run alice is checked, her fetch returns a
new tweet and her cursor is updated in memory, yet no interesting item was
found, so the end-of-run `state.save()` (guarded by `if new_posts:`,
bot.py 458-459) never runs. -/
theorem c4_counterexample :
    dictGet (check_influencer_posts fetchPlainW [aliceW] inflStW).1.influencer_last_tweets
      aliceW = some "5".toList ∧
    (check_influencer_posts fetchPlainW [aliceW] inflStW).2.2 = false := by
  exact ⟨rfl, rfl⟩

/-- C4 amended: the cursor of every checked username with a cached id whose
fetch returned new items is updated (in memory) to the first returned id,
whether or not any item was interesting; the end-of-run persist runs if and
only if at least one interesting item was found. -/
theorem c4_cursor_update_save_on_posts (fetch : List Char → List Tweet)
    (influencers : List (List Char)) (st : InflState) :
    (∀ u t₀ ts, ((influencers.take 50).map lowerStr).Nodup →
      u ∈ influencers.take 50 →
      (dictGet st.influencer_user_ids (lowerStr u)).isSome = true →
      fetch u = t₀ :: ts →
      dictGet (check_influencer_posts fetch influencers st).1.influencer_last_tweets
        (lowerStr u) = some t₀.id) ∧
    ((check_influencer_posts fetch influencers st).2.2 = true ↔
      (check_influencer_posts fetch influencers st).2.1 ≠ []) := by
  constructor
  · intro u t₀ ts hnd hu hid hfetch
    rw [check_state_eq]
    exact inflLoop_cursor_set fetch (influencers.take 50) st u t₀ ts hnd hu hid hfetch
  · rw [check_saved_eq]
    exact decide_eq_true_iff

/-- Witness for the amended C4 at the concrete run of the counterexample. -/
theorem c4_cursor_update_save_on_posts_witness :
    dictGet (check_influencer_posts fetchPlainW [aliceW] inflStW).1.influencer_last_tweets
      (lowerStr aliceW) = some tweetPlainW.id ∧
    ((check_influencer_posts fetchPlainW [aliceW] inflStW).2.2 = true ↔
      (check_influencer_posts fetchPlainW [aliceW] inflStW).2.1 ≠ []) :=
  ⟨(c4_cursor_update_save_on_posts fetchPlainW [aliceW] inflStW).1 aliceW
      tweetPlainW [] (by decide) (by decide) (by decide) (by decide),
   (c4_cursor_update_save_on_posts fetchPlainW [aliceW] inflStW).2⟩

/-- C5: a fetched item of a checked (and id-cached) username appears in the
returned interesting list iff its text contains `@beeos_arenavs`
case-insensitively; and in the concrete scenario (cursor for alice unset,
fetch [T3, T2, T1], only T2 mentioning the handle) the cursor for alice ends
at the id of T3 and the returned list is exactly [T2]. -/
theorem c5_interesting_iff_mention :
    (∀ (fetch : List Char → List Tweet) (influencers : List (List Char))
        (st : InflState) (t : Tweet),
      t ∈ (check_influencer_posts fetch influencers st).2.1 ↔
        ∃ u ∈ influencers.take 50,
          (dictGet st.influencer_user_ids (lowerStr u)).isSome = true ∧
          t ∈ fetch u ∧ mentionsTarget t.text = true) ∧
    (dictGet (check_influencer_posts fetchScenW [aliceW] inflStW).1.influencer_last_tweets
        aliceW = some tweet3W.id ∧
      (check_influencer_posts fetchScenW [aliceW] inflStW).2.1 = [tweet2W]) := by
  constructor
  · intro fetch influencers st t
    rw [check_posts_eq, inflLoop_posts, List.mem_flatMap]
    constructor
    · rintro ⟨u, hu, ht⟩
      refine ⟨u, hu, ?_⟩
      by_cases hid : (dictGet st.influencer_user_ids (lowerStr u)).isSome = true
      · rw [if_pos hid] at ht
        have hm := List.mem_filter.mp ht
        exact ⟨hid, hm.1, hm.2⟩
      · rw [if_neg hid] at ht
        exact absurd ht (List.not_mem_nil t)
    · rintro ⟨u, hu, hid, htf, hm⟩
      refine ⟨u, hu, ?_⟩
      rw [if_pos hid]
      exact List.mem_filter.mpr ⟨htf, hm⟩
  · exact ⟨rfl, rfl⟩

/-- C6: in every `check_twitter_job` run, every notification send for a
tweet of the batch is strictly preceded in the event trace by the persist of
the advanced cursor, and that cursor value is the stored one afterwards. -/
theorem c6_persist_before_send (tweets : List Tweet) (st : TwState) :
    ∀ (n : Nat) (tid : List Char) (sp : Bool),
      ((check_twitter_job tweets st).2)[n]? = some (TwEvent.send tid sp) →
      ∃ m cid, m < n ∧
        ((check_twitter_job tweets st).2)[m]? =
          some (TwEvent.persistCursor cid) ∧
        (check_twitter_job tweets st).1.last_tweet_id = some cid := by
  intro n tid sp hn
  cases tweets with
  | nil => simp [check_twitter_job, check_for_new_tweets] at hn
  | cons t ts =>
    cases n with
    | zero =>
      exfalso
      simp [check_twitter_job, check_for_new_tweets] at hn
    | succ n =>
      exact ⟨0, t.id, by omega, rfl, rfl⟩

/-- Witness for C6: a one-tweet batch; the send at position 1 is preceded by
the persist at position 0. -/
theorem c6_persist_before_send_witness :
    ∃ m cid, m < 1 ∧
      ((check_twitter_job [tweet3W] twStW).2)[m]? =
        some (TwEvent.persistCursor cid) ∧
      (check_twitter_job [tweet3W] twStW).1.last_tweet_id = some cid :=
  c6_persist_before_send [tweet3W] twStW 1 tweet3W.id false (by decide)

/-- If every checked username fetches no new items, the loop is a no-op. -/
theorem inflLoop_no_new (fetch : List Char → List Tweet) :
    ∀ l st, (∀ u ∈ l, fetch u = []) → inflLoop fetch l st = (st, []) := by
  intro l
  induction l with
  | nil => intro st _; rfl
  | cons u rest ih =>
    intro st h
    have hu := h u (List.mem_cons_self u rest)
    simp only [inflLoop, hu]
    cases dictGet st.influencer_user_ids (lowerStr u) with
    | none => exact ih st (fun v hv => h v (List.mem_cons_of_mem u hv))
    | some uid => exact ih st (fun v hv => h v (List.mem_cons_of_mem u hv))

/-- C7: for each monitor, a check whose fetch yields no new items leaves the
stored cursor state exactly as it was: the official-account monitor on an
empty tweet list, the feed monitor whenever it returns no new articles
(error, bad status, empty feed, or every entry already seen), and the
tracked-accounts monitor when every checked username fetches nothing. -/
theorem c7_no_new_no_rollback :
    (∀ (tweets : List Tweet) (st : TwState), tweets = [] →
      (check_for_new_tweets tweets st).1 = st) ∧
    (∀ (fetched : Option (Nat × List FeedEntry)) (st : MedState),
      (check_for_new_articles fetched st).2.1 = [] →
      (check_for_new_articles fetched st).1 = st) ∧
    (∀ (fetch : List Char → List Tweet) (influencers : List (List Char))
        (st : InflState),
      (∀ u ∈ influencers.take 50, fetch u = []) →
      (check_influencer_posts fetch influencers st).1 = st) := by
  refine ⟨?_, ?_, ?_⟩
  · intro tweets st h
    subst h
    rfl
  · intro fetched st h
    rcases fetched with _ | ⟨status, entries⟩
    · rfl
    · by_cases hs : status ≠ 200
      · simp only [check_for_new_articles, if_pos hs]
      · cases entries with
        | nil => simp only [check_for_new_articles, if_neg hs]
        | cons e₀ rest =>
          simp only [check_for_new_articles, if_neg hs] at h ⊢
          by_cases hn :
              collectNew st.last_medium_article ((e₀ :: rest).take 5) ≠ []
          · rw [if_pos hn] at h
            exact absurd h hn
          · rw [if_neg hn]
  · intro fetch influencers st h
    rw [check_state_eq, inflLoop_no_new fetch (influencers.take 50) st h]

/-- Witness for C7: all three no-new-item checks at concrete states. -/
theorem c7_no_new_no_rollback_witness :
    (check_for_new_tweets [] twStW).1 = twStW ∧
    (check_for_new_articles (some (404, [])) medStW).1 = medStW ∧
    (check_influencer_posts fetchEmptyW [aliceW] inflStW).1 = inflStW :=
  ⟨c7_no_new_no_rollback.1 [] twStW rfl,
   c7_no_new_no_rollback.2.1 (some (404, [])) medStW rfl,
   c7_no_new_no_rollback.2.2 fetchEmptyW [aliceW] inflStW (by decide)⟩

/-- C10: `is_twitter_space` is equivalent to the single case-insensitive
substring test for "space" (the "spaces" and "twitter.com/i/spaces" clauses
are subsumed), so a tweet containing "workspace" is also flagged. -/
theorem c10_space_classifier :
    (∀ text : List Char,
      is_twitter_space text = pyIn "space".toList (lowerStr text)) ∧
    is_twitter_space "Check out my new workspace".toList = true := by
  constructor
  · intro text
    unfold is_twitter_space
    by_cases h : "space".toList <:+: lowerStr text
    · rw [show pyIn "space".toList (lowerStr text) = true from decide_eq_true h]
      simp
    · have h2 : ¬ ("spaces".toList <:+: lowerStr text) :=
        fun hc => h (List.IsInfix.trans (by decide) hc)
      have h3 : ¬ ("twitter.com/i/spaces".toList <:+: lowerStr text) :=
        fun hc => h (List.IsInfix.trans (by decide) hc)
      rw [show pyIn "space".toList (lowerStr text) = false from decide_eq_false h,
        show pyIn "spaces".toList (lowerStr text) = false from decide_eq_false h2,
        show pyIn "twitter.com/i/spaces".toList (lowerStr text) = false from
          decide_eq_false h3]
      simp
  · decide

/-- C9 as stated is false: a new entry whose original summary has length 2,
far below the bound, is still returned with the "..." suffix marker
(bot.py 501 appends the marker whenever the summary is non-empty, truncated
or not). -/
theorem c9_counterexample :
    ((check_for_new_articles (some (200, [entrySmallW])) medStEmptyW).2.1).map
      Article.summary = ["hi...".toList] ∧
    ("hi".toList).length ≤ 200 ∧
    "...".toList <:+ "hi...".toList := by
  exact ⟨rfl, by decide, by decide⟩

/-- Every article the feed check returns is built from some entry. -/
theorem collectNew_mem (cursor : Option (List Char)) :
    ∀ (l : List FeedEntry) (a : Article), a ∈ collectNew cursor l →
      ∃ e ∈ l, a = mkArticle e := by
  intro l
  induction l with
  | nil => intro a ha; exact absurd ha (List.not_mem_nil a)
  | cons e rest ih =>
    intro a ha
    simp only [collectNew] at ha
    by_cases hc : cursorHit cursor (entryId e) = true
    · rw [if_pos hc] at ha
      exact absurd ha (List.not_mem_nil a)
    · rw [if_neg hc] at ha
      rcases List.mem_cons.mp ha with h | h
      · exact ⟨e, List.mem_cons_self e rest, h⟩
      · obtain ⟨e₂, he₂, heq⟩ := ih a h
        exact ⟨e₂, List.mem_cons_of_mem e he₂, heq⟩

/-- The summary field is bounded and carries the marker iff the original
summary was present and non-empty. -/
theorem mediumSummary_spec (s : Option (List Char)) :
    (mediumSummary s).length ≤ 203 ∧
    ("...".toList <:+ mediumSummary s ↔ (s ≠ none ∧ s ≠ some [])) := by
  match s with
  | none =>
    refine ⟨by simp [mediumSummary], ?_⟩
    simp only [mediumSummary]
    constructor
    · intro h
      have := h.length_le
      simp at this
    · intro h
      exact absurd rfl h.1
  | some str =>
    by_cases he : str = []
    · subst he
      refine ⟨by simp [mediumSummary], ?_⟩
      simp only [mediumSummary, if_pos rfl]
      constructor
      · intro h
        have := h.length_le
        simp at this
      · intro h
        exact absurd rfl h.2
    · refine ⟨?_, ?_⟩
      · simp only [mediumSummary, if_neg he, List.length_append,
          List.length_take]
        have h200 : (str.take 200).length ≤ 200 := by
          simp [List.length_take]
        have h3 : ("...".toList).length = 3 := rfl
        omega
      · simp only [mediumSummary, if_neg he]
        constructor
        · intro _
          exact ⟨Option.some_ne_none str, by simp [he]⟩
        · intro _
          exact List.suffix_append _ _

/-- C9 amended: every returned article summary is `mediumSummary` of the
original entry summary, its length is at most 203 (200 plus the marker),
and the "..." marker is present iff the original summary was present and
non-empty — not iff it was truncated. -/
theorem c9_summary_bound_marker (fetched : Option (Nat × List FeedEntry))
    (st : MedState) :
    ∀ a ∈ (check_for_new_articles fetched st).2.1,
      ∃ e : FeedEntry, a = mkArticle e ∧
        a.summary = mediumSummary e.summary ∧
        a.summary.length ≤ 203 ∧
        ("...".toList <:+ a.summary ↔
          (e.summary ≠ none ∧ e.summary ≠ some [])) := by
  intro a ha
  have hmem : ∃ e, a = mkArticle e := by
    rcases fetched with _ | ⟨status, entries⟩
    · exact absurd ha (List.not_mem_nil a)
    · by_cases hs : status ≠ 200
      · simp only [check_for_new_articles, if_pos hs] at ha
        exact absurd ha (List.not_mem_nil a)
      · cases entries with
        | nil =>
          simp only [check_for_new_articles, if_neg hs] at ha
          exact absurd ha (List.not_mem_nil a)
        | cons e₀ rest =>
          simp only [check_for_new_articles, if_neg hs] at ha
          by_cases hn :
              collectNew st.last_medium_article ((e₀ :: rest).take 5) ≠ []
          · rw [if_pos hn] at ha
            obtain ⟨e, _, heq⟩ := collectNew_mem st.last_medium_article _ a ha
            exact ⟨e, heq⟩
          · rw [if_neg hn] at ha
            obtain ⟨e, _, heq⟩ := collectNew_mem st.last_medium_article _ a ha
            exact ⟨e, heq⟩
  obtain ⟨e, heq⟩ := hmem
  subst heq
  have hspec := mediumSummary_spec e.summary
  exact ⟨e, rfl, rfl, hspec.1, hspec.2⟩

/-- Witness for the amended C9 at the short-summary entry. -/
theorem c9_summary_bound_marker_witness :
    ∃ e : FeedEntry, mkArticle entrySmallW = mkArticle e ∧
      (mkArticle entrySmallW).summary = mediumSummary e.summary ∧
      (mkArticle entrySmallW).summary.length ≤ 203 ∧
      ("...".toList <:+ (mkArticle entrySmallW).summary ↔
        (e.summary ≠ none ∧ e.summary ≠ some [])) :=
  c9_summary_bound_marker (some (200, [entrySmallW])) medStEmptyW
    (mkArticle entrySmallW) (by decide)

theorem assignLoop_eq_firstMin (counts : List Char → Nat) :
    ∀ l cur, assignLoop counts (some (counts cur.1)) cur l =
      firstMin counts cur l := by
  intro l
  induction l with
  | nil => intro cur; rfl
  | cons m rest ih =>
    intro cur
    obtain ⟨name, tid⟩ := m
    simp only [assignLoop, firstMin]
    by_cases h : counts name < counts cur.1
    · rw [if_pos (by simpa using h), if_pos h]
      exact ih (name, tid)
    · rw [if_neg (by simpa using h), if_neg h]
      exact ih cur

theorem firstMin_min (counts : List Char → Nat) :
    ∀ l cur, ∀ m ∈ cur :: l,
      counts (firstMin counts cur l).1 ≤ counts m.1 := by
  intro l
  induction l with
  | nil =>
    intro cur m hm
    rcases List.mem_cons.mp hm with h | h
    · subst h; exact le_rfl
    · exact absurd h (List.not_mem_nil m)
  | cons m₁ rest ih =>
    intro cur m hm
    simp only [firstMin]
    by_cases h : counts m₁.1 < counts cur.1
    · rw [if_pos h]
      rcases List.mem_cons.mp hm with he | he
      · rw [he]
        exact le_trans (ih m₁ m₁ (List.mem_cons_self m₁ rest)) (le_of_lt h)
      · exact ih m₁ m he
    · rw [if_neg h]
      rcases List.mem_cons.mp hm with he | he
      · rw [he]
        exact ih cur cur (List.mem_cons_self cur rest)
      · rcases List.mem_cons.mp he with he₂ | he₂
        · rw [he₂]
          exact le_trans (ih cur cur (List.mem_cons_self cur rest))
            (le_of_not_lt h)
        · exact ih cur m (List.mem_cons_of_mem cur he₂)

theorem firstMin_first (counts : List Char → Nat) :
    ∀ l cur, ∃ pre post,
      cur :: l = pre ++ firstMin counts cur l :: post ∧
      ∀ m ∈ pre, counts (firstMin counts cur l).1 < counts m.1 := by
  intro l
  induction l with
  | nil =>
    intro cur
    exact ⟨[], [], rfl, by intro m hm; exact absurd hm (List.not_mem_nil m)⟩
  | cons m₁ rest ih =>
    intro cur
    simp only [firstMin]
    by_cases h : counts m₁.1 < counts cur.1
    · rw [if_pos h]
      obtain ⟨pre, post, heq, hlt⟩ := ih m₁
      refine ⟨cur :: pre, post, by rw [List.cons_append, ← heq], ?_⟩
      intro m hm
      rcases List.mem_cons.mp hm with he | he
      · subst he
        exact lt_of_le_of_lt
          (firstMin_min counts rest m₁ m₁ (List.mem_cons_self m₁ rest)) h
      · exact hlt m he
    · rw [if_neg h]
      obtain ⟨pre, post, heq, hlt⟩ := ih cur
      cases pre with
      | nil =>
        simp only [List.nil_append] at heq
        refine ⟨[], m₁ :: rest, ?_, ?_⟩
        · rw [List.nil_append]
          have hcur : firstMin counts cur rest = cur := by
            injection heq with h₁ h₂
            exact h₁.symm
          rw [hcur]
        · intro m hm
          exact absurd hm (List.not_mem_nil m)
      | cons p ps =>
        rw [List.cons_append] at heq
        injection heq with h₁ h₂
        refine ⟨cur :: m₁ :: ps, post, ?_, ?_⟩
        · rw [List.cons_append, List.cons_append, ← h₂]
        · intro m hm
          have hfc : counts (firstMin counts cur rest).1 < counts cur.1 := by
            have := hlt p (List.mem_cons_self p ps)
            rwa [← h₁] at this
          rcases List.mem_cons.mp hm with he | he
          · subst he
            exact hfc
          · rcases List.mem_cons.mp he with he₂ | he₂
            · subst he₂
              exact lt_of_lt_of_le hfc (le_of_not_lt h)
            · exact hlt m (List.mem_cons_of_mem p he₂)

/-- C8: `assign_manager` returns the first recipient in fixed iteration
order whose count is minimal, increments exactly that count, and saves; and
with the three configured managers, 9 assignments from the zero ledger give
each manager exactly 3, the first pick being Igor. -/
theorem c8_fair_assignment :
    (∀ (counts : List Char → Nat) (managers : List (List Char × Nat)),
      managers ≠ [] →
      ∃ counts₂ sel,
        assign_manager counts managers = some (counts₂, sel, true) ∧
        (∃ pre post, managers = pre ++ sel :: post ∧
          ∀ m ∈ pre, counts sel.1 < counts m.1) ∧
        (∀ m ∈ managers, counts sel.1 ≤ counts m.1) ∧
        counts₂ sel.1 = counts sel.1 + 1 ∧
        (∀ k, k ≠ sel.1 → counts₂ k = counts k)) ∧
    ((iterateAssign INFLUENCER_MANAGERS 9 zeroCounts).1 "Igor".toList = 3 ∧
     (iterateAssign INFLUENCER_MANAGERS 9 zeroCounts).1 "Roman".toList = 3 ∧
     (iterateAssign INFLUENCER_MANAGERS 9 zeroCounts).1 "Dyma".toList = 3 ∧
     (iterateAssign INFLUENCER_MANAGERS 9 zeroCounts).2.head? =
       some ("Igor".toList, 422264082)) := by
  constructor
  · intro counts managers hne
    cases managers with
    | nil => exact absurd rfl hne
    | cons m₀ rest =>
      obtain ⟨n₀, t₀⟩ := m₀
      have hsel : assignLoop counts none (n₀, t₀) ((n₀, t₀) :: rest) =
          firstMin counts (n₀, t₀) rest :=
        assignLoop_eq_firstMin counts rest (n₀, t₀)
      refine ⟨fun k => if k = (firstMin counts (n₀, t₀) rest).1 then counts k + 1
          else counts k,
        firstMin counts (n₀, t₀) rest, ?_, ?_, ?_, ?_, ?_⟩
      · simp only [assign_manager]
        rw [hsel]
      · exact firstMin_first counts rest (n₀, t₀)
      · exact firstMin_min counts rest (n₀, t₀)
      · simp
      · intro k hk
        simp [hk]
  · exact ⟨by decide, by decide, by decide, by decide⟩

/-- Witness for C8 at the configured manager pool and the zero ledger. -/
theorem c8_fair_assignment_witness :
    ∃ counts₂ sel,
      assign_manager zeroCounts INFLUENCER_MANAGERS = some (counts₂, sel, true) ∧
      (∃ pre post, INFLUENCER_MANAGERS = pre ++ sel :: post ∧
        ∀ m ∈ pre, zeroCounts sel.1 < zeroCounts m.1) ∧
      (∀ m ∈ INFLUENCER_MANAGERS, zeroCounts sel.1 ≤ zeroCounts m.1) ∧
      counts₂ sel.1 = zeroCounts sel.1 + 1 ∧
      (∀ k, k ≠ sel.1 → counts₂ k = zeroCounts k) :=
  c8_fair_assignment.1 zeroCounts INFLUENCER_MANAGERS (by decide)
